import Mathlib

/-!
Shallow embedding of the transaction intake and output-classification pipeline
of the `zcash_tx_decryptor` binary (`src/simple_main.rs`, `src/models.rs`),
together with theorems settling the specification claims.

Raw transaction bytes are modelled as `List Nat` with each element a byte
value; machine integers are modelled as `Nat` (u64/usize) and `Int` (i64)
with explicit bounds and wrap-around where the source casts.
-/

namespace ZcashTxDecryptor

/-- Maximum value of a `u64`. -/
def u64Max : Nat := 2 ^ 64 - 1

/-- Maximum value of an `i64`. -/
def i64Max : Nat := 2 ^ 63 - 1

/-- The two consensus networks (`zcash_protocol::consensus::Network`). -/
inductive Network where
  | MainNetwork
  | TestNetwork
  deriving DecidableEq, Repr

/-- `simple_main.rs` lines 88-91: whether the height lies in the NU6.1
activation range for the given network. -/
def is_nu61_range (network : Network) (height : Nat) : Bool :=
  match network with
  | .MainNetwork => decide (height ≥ 3146400)
  | .TestNetwork => decide (height ≥ 2976640)

/-- The NU6.1 branch id 0x4dec4df0 in little-endian byte order (f0 4d ec 4d). -/
def nu61IdBytes : List Nat := [0xf0, 0x4d, 0xec, 0x4d]

/-- The NU6 branch id 0xc8e71055 in little-endian byte order (55 10 e7 c8). -/
def nu6IdBytes : List Nat := [0x55, 0x10, 0xe7, 0xc8]

/-- `simple_main.rs` lines 106-109: overwrite bytes 8-11 with the NU6
branch id bytes. -/
def patchNu61 (tx_bytes : List Nat) : List Nat :=
  (((tx_bytes.set 8 0x55).set 9 0x10).set 10 0xe7).set 11 0xc8

/-- `simple_main.rs` lines 88-113: the branch-id patch heuristic applied to
the raw transaction bytes.  It rewrites bytes 8-11 from the NU6.1 branch id
to the NU6 branch id when the height is in the NU6.1 range, the bytes are
long enough, the v5 header pattern matches, and the NU6.1 id is present;
otherwise it returns the bytes unchanged. -/
def resolveTxBytes (network : Network) (height : Nat) (tx_bytes : List Nat) : List Nat :=
  if is_nu61_range network height then
    if 12 ≤ tx_bytes.length then
      if tx_bytes.getD 0 0 = 0x05 ∧ tx_bytes.getD 3 0 = 0x80 then
        if tx_bytes.getD 8 0 = 0xf0 ∧ tx_bytes.getD 9 0 = 0x4d ∧
            tx_bytes.getD 10 0 = 0xec ∧ tx_bytes.getD 11 0 = 0x4d then
          patchNu61 tx_bytes
        else tx_bytes
      else tx_bytes
    else tx_bytes
  else tx_bytes

/-- `simple_main.rs` lines 74-78 and 88-113: after hex decoding, the intake
step fails when the byte sequence is empty and otherwise applies the
(total, error-free) branch-id patch heuristic. -/
def intake (network : Network) (height : Nat) (tx_bytes : List Nat) :
    Except String (List Nat) :=
  if tx_bytes.isEmpty then .error "Transaction data is empty"
  else .ok (resolveTxBytes network height tx_bytes)

/-- `zcash_client_backend::TransferType`: the closed set of transfer
classifications attached to a decrypted output. -/
inductive TransferType where
  | Incoming
  | WalletInternal
  | Outgoing
  deriving DecidableEq

/-- One trial-decrypted shielded output as consumed by
`build_transaction_details`: note value (u64), position index within its
bundle, transfer classification, and the raw memo-field bytes. -/
structure DecryptedOutput where
  value : Nat
  index : Nat
  transferType : TransferType
  memoBytes : List Nat
  deriving DecidableEq

/-- `models.rs` lines 57-77: information about a single decrypted output. -/
structure OutputInfo where
  protocol : String
  amount_zats : Int
  index : Nat
  transfer_type : String
  direction : String
  memo : String
  deriving DecidableEq

/-- The three per-direction u64 accumulators of
`build_transaction_details` (`simple_main.rs` lines 160-162). -/
structure Totals where
  incoming_zats : Nat
  change_zats : Nat
  outgoing_zats : Nat
  deriving DecidableEq

/-- Rust `u64::saturating_add`. -/
def saturating_add (a b : Nat) : Nat := min (a + b) u64Max

/-- `simple_main.rs` lines 165-171: map a transfer classification to its
(raw label, direction label) display pair; an exhaustive match with no
default arm. -/
def classify_transfer : TransferType → String × String
  | .Incoming => ("Incoming", "received")
  | .WalletInternal => ("WalletInternal", "change")
  | .Outgoing => ("Outgoing", "sent")

/-- `simple_main.rs` lines 179-183 and 201-205: add an output's value to
the accumulator matching its classification, with saturating addition. -/
def accumulate (t : Totals) (out : DecryptedOutput) : Totals :=
  match out.transferType with
  | .Incoming => { t with incoming_zats := saturating_add t.incoming_zats out.value }
  | .WalletInternal => { t with change_zats := saturating_add t.change_zats out.value }
  | .Outgoing => { t with outgoing_zats := saturating_add t.outgoing_zats out.value }

/-- Rust `value as i64` on a `u64` value: unchecked two's-complement
reinterpretation (`simple_main.rs` lines 187 and 209). -/
def u64_as_i64 (v : Nat) : Int :=
  if v < 2 ^ 63 then (v : Int) else (v : Int) - 2 ^ 64

/-- Rust `i64::try_from` on a `u64`: checked conversion, `none` when the
value exceeds `i64::MAX`. -/
def i64_try_from (v : Nat) : Option Int :=
  if v ≤ i64Max then some ((v : Int)) else none

/-- U+FFFD, the Unicode replacement character. -/
def replacementChar : Char := Char.ofNat 0xFFFD

/-- Whether a byte is a UTF-8 continuation byte (0x80-0xBF). -/
def isUtf8Cont (b : Nat) : Bool := decide (0x80 ≤ b) && decide (b < 0xC0)

/-- One step of Rust-style lossy UTF-8 decoding (substitution of maximal
subparts): decode the first scalar value or emit U+FFFD, returning the
character together with the number of bytes consumed (1 to 4). -/
def utf8Step (l : List Nat) : Char × Nat :=
  match l with
  | [] => (replacementChar, 1)
  | b :: rest =>
    if b < 0x80 then (Char.ofNat b, 1)
    else if b < 0xC2 then (replacementChar, 1)
    else if b < 0xE0 then
      match rest with
      | [] => (replacementChar, 1)
      | c1 :: _ =>
        if isUtf8Cont c1 then (Char.ofNat ((b - 0xC0) * 0x40 + (c1 - 0x80)), 2)
        else (replacementChar, 1)
    else if b < 0xF0 then
      match rest with
      | [] => (replacementChar, 1)
      | c1 :: rest2 =>
        if (if b = 0xE0 then decide (0xA0 ≤ c1) && decide (c1 < 0xC0)
            else if b = 0xED then decide (0x80 ≤ c1) && decide (c1 < 0xA0)
            else isUtf8Cont c1) then
          match rest2 with
          | [] => (replacementChar, 2)
          | c2 :: _ =>
            if isUtf8Cont c2 then
              (Char.ofNat ((b - 0xE0) * 0x1000 + (c1 - 0x80) * 0x40 + (c2 - 0x80)), 3)
            else (replacementChar, 2)
        else (replacementChar, 1)
    else if b < 0xF5 then
      match rest with
      | [] => (replacementChar, 1)
      | c1 :: rest2 =>
        if (if b = 0xF0 then decide (0x90 ≤ c1) && decide (c1 < 0xC0)
            else if b = 0xF4 then decide (0x80 ≤ c1) && decide (c1 < 0x90)
            else isUtf8Cont c1) then
          match rest2 with
          | [] => (replacementChar, 2)
          | c2 :: rest3 =>
            if isUtf8Cont c2 then
              match rest3 with
              | [] => (replacementChar, 3)
              | c3 :: _ =>
                if isUtf8Cont c3 then
                  (Char.ofNat ((b - 0xF0) * 0x40000 + (c1 - 0x80) * 0x1000
                      + (c2 - 0x80) * 0x40 + (c3 - 0x80)), 4)
                else (replacementChar, 3)
            else (replacementChar, 2)
        else (replacementChar, 1)
    else (replacementChar, 1)

theorem utf8Step_consumed_pos (l : List Nat) : 1 ≤ (utf8Step l).2 := by
  unfold utf8Step
  repeat' split
  all_goals simp

/-- Decoding loop with explicit fuel; since each step consumes at least
one byte (`utf8Step_consumed_pos`), fuel equal to the list length makes
the zero-fuel branch unreachable. -/
def utf8LossyAux : Nat → List Nat → List Char
  | _, [] => []
  | 0, _ :: _ => []
  | fuel + 1, b :: rest =>
    (utf8Step (b :: rest)).1 ::
      utf8LossyAux fuel (List.drop (utf8Step (b :: rest)).2 (b :: rest))

/-- Rust `String::from_utf8_lossy`: decode bytes as UTF-8, replacing
ill-formed sequences with U+FFFD. -/
def from_utf8_lossy_chars (l : List Nat) : List Char :=
  utf8LossyAux l.length l

/-- Modelled from the spec: the decryption collaborator's memo accessor
(`MemoBytes::as_slice`, not part of this repository) exposes the memo
bytes excluding trailing null padding, so an absent or unset memo —
represented as all-zero bytes — exposes an empty slice. -/
def memo_as_slice (memoBytes : List Nat) : List Nat :=
  (memoBytes.reverse.dropWhile fun b => b == 0).reverse

/-- `simple_main.rs` lines 176 and 198: the record's memo string is the
lossy UTF-8 decoding of the exposed memo bytes. -/
def memoString (memoBytes : List Nat) : String :=
  String.mk (from_utf8_lossy_chars (memo_as_slice memoBytes))

/-- `simple_main.rs` lines 185-192 and 207-214: the `OutputInfo` record
emitted for one decrypted output under the given protocol tag. -/
def mkOutputInfo (protocol : String) (out : DecryptedOutput) : OutputInfo :=
  { protocol := protocol
    amount_zats := u64_as_i64 out.value
    index := out.index
    transfer_type := (classify_transfer out.transferType).1
    direction := (classify_transfer out.transferType).2
    memo := memoString out.memoBytes }

/-- `simple_main.rs` lines 174-215: one per-protocol loop body — push a
record and update the matching accumulator for each output in input
order. -/
def processOutputs (protocol : String) (outs : List DecryptedOutput) (t : Totals) :
    List OutputInfo × Totals :=
  match outs with
  | [] => ([], t)
  | o :: rest =>
    let r := processOutputs protocol rest (accumulate t o)
    (mkOutputInfo protocol o :: r.1, r.2)

/-- `simple_main.rs` lines 159-215: process all Sapling outputs, then all
Orchard outputs, starting from zero accumulators. -/
def aggregateOutputs (sapling orchard : List DecryptedOutput) :
    List OutputInfo × Totals :=
  let r1 := processOutputs "Sapling" sapling ⟨0, 0, 0⟩
  let r2 := processOutputs "Orchard" orchard r1.2
  (r1.1 ++ r2.1, r2.2)

/-- The exact (unbounded) sum of the values of the outputs carrying the
given classification. -/
def totalOf (tt : TransferType) (outs : List DecryptedOutput) : Nat :=
  ((outs.filter fun o => decide (o.transferType = tt)).map fun o => o.value).sum

/-- `simple_main.rs` line 156: the shortened display id, first 16 plus
last 16 characters joined by an ellipsis.  The slice expressions panic
(`none`) when the id is shorter than 16 characters. -/
def format_txid_short (txid : List Char) : Option (List Char) :=
  if 16 ≤ txid.length then
    some (txid.take 16 ++ "...".toList ++ txid.drop (txid.length - 16))
  else
    none

/-- `simple_main.rs` lines 53-55: the entry validation accepts only
64-character transaction ids. -/
def validate_txid_len (txid : List Char) : Bool := txid.length == 64

/-- `models.rs` lines 4-55: the report record, restricted to the
integer-valued and textual fields (the f64 display mirrors, wall-clock
timestamp, and constant fee fields carry no claim content; the fee field
is kept because it is a fixed constant). -/
structure TransactionDetails where
  transaction_id : List Char
  transaction_hash : List Char
  amount_zats : Int
  incoming_zats : Int
  change_zats : Int
  outgoing_zats : Int
  fee_zats : Int
  block_height : Nat
  outputs : List OutputInfo
  tx_size_bytes : Nat
  deriving DecidableEq

/-- `simple_main.rs` lines 217-254: the tail of `build_transaction_details`
after the per-output loops — compute the saturating total received, run
the four checked i64 conversions in source order, and assemble the
report. -/
def assembleReport (txid txid_short : List Char) (height tx_size_bytes : Nat)
    (records : List OutputInfo) (t : Totals) : Except String TransactionDetails :=
  match i64_try_from (saturating_add t.incoming_zats t.change_zats) with
  | none => .error "Total received amount exceeds i64 range"
  | some amount_zats_i64 =>
  match i64_try_from t.incoming_zats with
  | none => .error "Incoming amount exceeds i64 range"
  | some incoming_zats_i64 =>
  match i64_try_from t.change_zats with
  | none => .error "Change amount exceeds i64 range"
  | some change_zats_i64 =>
  match i64_try_from t.outgoing_zats with
  | none => .error "Outgoing amount exceeds i64 range"
  | some outgoing_zats_i64 =>
  .ok {
    transaction_id := txid
    transaction_hash := txid_short
    amount_zats := amount_zats_i64
    incoming_zats := incoming_zats_i64
    change_zats := change_zats_i64
    outgoing_zats := outgoing_zats_i64
    fee_zats := 0
    block_height := height
    outputs := records
    tx_size_bytes := tx_size_bytes }

/-- `simple_main.rs` lines 149-254: build the report.  `none` models a
panic of the shortened-id slicing; `Except.error` models the returned
`anyhow` errors of the checked i64 conversions. -/
def build_transaction_details (txid : List Char) (height : Nat) (tx_size_bytes : Nat)
    (sapling orchard : List DecryptedOutput) :
    Option (Except String TransactionDetails) :=
  match format_txid_short txid with
  | none => none
  | some txid_short =>
    some (assembleReport txid txid_short height tx_size_bytes
      (aggregateOutputs sapling orchard).1 (aggregateOutputs sapling orchard).2)

/-- The exact condition under which `resolveTxBytes` patches the bytes,
read off the nested `if`s of `simple_main.rs` lines 93-110. -/
def nu61PatchCond (network : Network) (height : Nat) (bytes : List Nat) : Prop :=
  is_nu61_range network height = true ∧ 12 ≤ bytes.length ∧
  bytes.getD 0 0 = 0x05 ∧ bytes.getD 3 0 = 0x80 ∧
  bytes.getD 8 0 = 0xf0 ∧ bytes.getD 9 0 = 0x4d ∧
  bytes.getD 10 0 = 0xec ∧ bytes.getD 11 0 = 0x4d

instance (network : Network) (height : Nat) (bytes : List Nat) :
    Decidable (nu61PatchCond network height bytes) := by
  unfold nu61PatchCond; infer_instance

theorem length_patchNu61 (l : List Nat) : (patchNu61 l).length = l.length := by
  simp [patchNu61]

theorem patchNu61_getD_of_ne (l : List Nat) (i : Nat)
    (h8 : i ≠ 8) (h9 : i ≠ 9) (h10 : i ≠ 10) (h11 : i ≠ 11) :
    (patchNu61 l).getD i 0 = l.getD i 0 := by
  simp [patchNu61, List.getD_eq_getElem?_getD, List.getElem?_set,
    Ne.symm h8, Ne.symm h9, Ne.symm h10, Ne.symm h11]

theorem patchNu61_getD_8 (l : List Nat) (h : 12 ≤ l.length) :
    (patchNu61 l).getD 8 0 = 0x55 := by
  have h8 : 8 < l.length := by omega
  simp [patchNu61, List.getD_eq_getElem?_getD, List.getElem?_set, h8]

theorem patchNu61_getD_9 (l : List Nat) (h : 12 ≤ l.length) :
    (patchNu61 l).getD 9 0 = 0x10 := by
  have h9 : 9 < l.length := by omega
  simp [patchNu61, List.getD_eq_getElem?_getD, List.getElem?_set, h9]

theorem patchNu61_getD_10 (l : List Nat) (h : 12 ≤ l.length) :
    (patchNu61 l).getD 10 0 = 0xe7 := by
  have h10 : 10 < l.length := by omega
  simp [patchNu61, List.getD_eq_getElem?_getD, List.getElem?_set, h10]

theorem patchNu61_getD_11 (l : List Nat) (h : 12 ≤ l.length) :
    (patchNu61 l).getD 11 0 = 0xc8 := by
  have h11 : 11 < l.length := by omega
  simp [patchNu61, List.getD_eq_getElem?_getD, List.getElem?_set, h11]

theorem resolveTxBytes_eq_patch (network : Network) (height : Nat) (bytes : List Nat)
    (hc : nu61PatchCond network height bytes) :
    resolveTxBytes network height bytes = patchNu61 bytes := by
  obtain ⟨h1, h2, h3, h4, h5, h6, h7, h8⟩ := hc
  simp only [List.getD_eq_getElem?_getD] at h3 h4 h5 h6 h7 h8
  simp [resolveTxBytes, h1, h2, h3, h4, h5, h6, h7, h8]

theorem resolveTxBytes_eq_self (network : Network) (height : Nat) (bytes : List Nat)
    (hc : ¬ nu61PatchCond network height bytes) :
    resolveTxBytes network height bytes = bytes := by
  unfold resolveTxBytes
  split_ifs with hw hl hh hb
  · exact absurd ⟨hw, hl, hh.1, hh.2, hb.1, hb.2.1, hb.2.2.1, hb.2.2.2⟩ hc
  all_goals rfl

/-- C1: for every network, height, and non-empty raw byte sequence, the
resolver rewrites the bytes if and only if the height is at or above the
network's collision-window threshold (3146400 on main, 2976640 on test),
the sequence has length at least 12, byte 0 is 0x05, byte 3 is 0x80, and
bytes 8-11 are f0 4d ec 4d; when it rewrites, the output differs only in
bytes 8-11, which become 55 10 e7 c8; otherwise the output equals the
input exactly. -/
theorem C1_resolver_rewrite_iff (network : Network) (height : Nat) (bytes : List Nat)
    (hne : bytes ≠ []) :
    (resolveTxBytes network height bytes ≠ bytes ↔ nu61PatchCond network height bytes)
    ∧ (nu61PatchCond network height bytes →
        (resolveTxBytes network height bytes).length = bytes.length ∧
        (∀ i, i ≠ 8 → i ≠ 9 → i ≠ 10 → i ≠ 11 →
          (resolveTxBytes network height bytes).getD i 0 = bytes.getD i 0) ∧
        (resolveTxBytes network height bytes).getD 8 0 = 0x55 ∧
        (resolveTxBytes network height bytes).getD 9 0 = 0x10 ∧
        (resolveTxBytes network height bytes).getD 10 0 = 0xe7 ∧
        (resolveTxBytes network height bytes).getD 11 0 = 0xc8)
    ∧ (¬ nu61PatchCond network height bytes → resolveTxBytes network height bytes = bytes)
    ∧ (is_nu61_range .MainNetwork height = true ↔ 3146400 ≤ height)
    ∧ (is_nu61_range .TestNetwork height = true ↔ 2976640 ≤ height) := by
  refine ⟨?_, ?_, resolveTxBytes_eq_self network height bytes, ?_, ?_⟩
  · constructor
    · intro hne'
      by_contra hc
      exact hne' (resolveTxBytes_eq_self network height bytes hc)
    · intro hc
      rw [resolveTxBytes_eq_patch network height bytes hc]
      intro heq
      have h8 : (patchNu61 bytes).getD 8 0 = 0x55 := patchNu61_getD_8 bytes hc.2.1
      rw [heq, hc.2.2.2.2.1] at h8
      exact absurd h8 (by decide)
  · intro hc
    rw [resolveTxBytes_eq_patch network height bytes hc]
    exact ⟨length_patchNu61 bytes,
      fun i h8 h9 h10 h11 => patchNu61_getD_of_ne bytes i h8 h9 h10 h11,
      patchNu61_getD_8 bytes hc.2.1, patchNu61_getD_9 bytes hc.2.1,
      patchNu61_getD_10 bytes hc.2.1, patchNu61_getD_11 bytes hc.2.1⟩
  · simp [is_nu61_range]
  · simp [is_nu61_range]

/-- Witness for C1 at a concrete matching input: the resolver rewrites a
minimal NU6.1-stamped v5 header at the mainnet threshold height. -/
theorem C1_resolver_rewrite_iff_witness :
    resolveTxBytes .MainNetwork 3146400 [5, 0, 0, 128, 0, 0, 0, 0, 240, 77, 236, 77]
      ≠ [5, 0, 0, 128, 0, 0, 0, 0, 240, 77, 236, 77] :=
  (C1_resolver_rewrite_iff .MainNetwork 3146400
      [5, 0, 0, 128, 0, 0, 0, 0, 240, 77, 236, 77] (by decide)).1.mpr (by decide)

/-- C8: the intake step fails with the malformed-input error exactly when
the decoded raw byte sequence is empty; for every non-empty input the
resolver's window and header-pattern checks raise no error and intake
returns the (possibly patched) bytes. -/
theorem C8_malformed_input_iff_empty (network : Network) (height : Nat) (bytes : List Nat) :
    (intake network height bytes = .error "Transaction data is empty" ↔ bytes = [])
    ∧ (bytes ≠ [] →
        intake network height bytes = .ok (resolveTxBytes network height bytes)) := by
  constructor
  · constructor
    · intro h
      by_contra hne
      simp [intake, hne] at h
    · intro h
      simp [intake, h]
  · intro hne
    simp [intake, hne]

/-- Witness for C8 at concrete inputs: empty bytes fail, a one-byte input
passes through unchanged. -/
theorem C8_malformed_input_iff_empty_witness :
    intake .MainNetwork 100 [7] = .ok [7] :=
  (C8_malformed_input_iff_empty .MainNetwork 100 [7]).2 (by decide)

theorem totalOf_nil (tt : TransferType) : totalOf tt [] = 0 := rfl

theorem totalOf_cons (tt : TransferType) (o : DecryptedOutput)
    (rest : List DecryptedOutput) :
    totalOf tt (o :: rest)
      = (if o.transferType = tt then o.value else 0) + totalOf tt rest := by
  by_cases h : o.transferType = tt <;> simp [totalOf, List.filter_cons, h]

theorem totalOf_append (tt : TransferType) (l1 l2 : List DecryptedOutput) :
    totalOf tt (l1 ++ l2) = totalOf tt l1 + totalOf tt l2 := by
  simp [totalOf, List.filter_append]

theorem accumulate_incoming (t : Totals) (o : DecryptedOutput) :
    (accumulate t o).incoming_zats
      = if o.transferType = .Incoming then saturating_add t.incoming_zats o.value
        else t.incoming_zats := by
  cases h : o.transferType <;> simp [accumulate, h]

theorem accumulate_change (t : Totals) (o : DecryptedOutput) :
    (accumulate t o).change_zats
      = if o.transferType = .WalletInternal then saturating_add t.change_zats o.value
        else t.change_zats := by
  cases h : o.transferType <;> simp [accumulate, h]

theorem accumulate_outgoing (t : Totals) (o : DecryptedOutput) :
    (accumulate t o).outgoing_zats
      = if o.transferType = .Outgoing then saturating_add t.outgoing_zats o.value
        else t.outgoing_zats := by
  cases h : o.transferType <;> simp [accumulate, h]

theorem foldl_accumulate_incoming (outs : List DecryptedOutput) (t : Totals)
    (h : t.incoming_zats + totalOf .Incoming outs ≤ u64Max) :
    (outs.foldl accumulate t).incoming_zats
      = t.incoming_zats + totalOf .Incoming outs := by
  induction outs generalizing t with
  | nil => simp [totalOf_nil]
  | cons o rest ih =>
    rw [List.foldl_cons]
    rw [totalOf_cons] at h ⊢
    by_cases ho : o.transferType = .Incoming
    · rw [if_pos ho] at h ⊢
      have hacc : (accumulate t o).incoming_zats = t.incoming_zats + o.value := by
        rw [accumulate_incoming, if_pos ho, saturating_add]
        omega
      rw [ih (accumulate t o) (by rw [hacc]; omega), hacc]
      omega
    · rw [if_neg ho] at h ⊢
      have hacc : (accumulate t o).incoming_zats = t.incoming_zats := by
        rw [accumulate_incoming, if_neg ho]
      rw [ih (accumulate t o) (by rw [hacc]; omega), hacc]
      omega

theorem foldl_accumulate_change (outs : List DecryptedOutput) (t : Totals)
    (h : t.change_zats + totalOf .WalletInternal outs ≤ u64Max) :
    (outs.foldl accumulate t).change_zats
      = t.change_zats + totalOf .WalletInternal outs := by
  induction outs generalizing t with
  | nil => simp [totalOf_nil]
  | cons o rest ih =>
    rw [List.foldl_cons]
    rw [totalOf_cons] at h ⊢
    by_cases ho : o.transferType = .WalletInternal
    · rw [if_pos ho] at h ⊢
      have hacc : (accumulate t o).change_zats = t.change_zats + o.value := by
        rw [accumulate_change, if_pos ho, saturating_add]
        omega
      rw [ih (accumulate t o) (by rw [hacc]; omega), hacc]
      omega
    · rw [if_neg ho] at h ⊢
      have hacc : (accumulate t o).change_zats = t.change_zats := by
        rw [accumulate_change, if_neg ho]
      rw [ih (accumulate t o) (by rw [hacc]; omega), hacc]
      omega

theorem foldl_accumulate_outgoing (outs : List DecryptedOutput) (t : Totals)
    (h : t.outgoing_zats + totalOf .Outgoing outs ≤ u64Max) :
    (outs.foldl accumulate t).outgoing_zats
      = t.outgoing_zats + totalOf .Outgoing outs := by
  induction outs generalizing t with
  | nil => simp [totalOf_nil]
  | cons o rest ih =>
    rw [List.foldl_cons]
    rw [totalOf_cons] at h ⊢
    by_cases ho : o.transferType = .Outgoing
    · rw [if_pos ho] at h ⊢
      have hacc : (accumulate t o).outgoing_zats = t.outgoing_zats + o.value := by
        rw [accumulate_outgoing, if_pos ho, saturating_add]
        omega
      rw [ih (accumulate t o) (by rw [hacc]; omega), hacc]
      omega
    · rw [if_neg ho] at h ⊢
      have hacc : (accumulate t o).outgoing_zats = t.outgoing_zats := by
        rw [accumulate_outgoing, if_neg ho]
      rw [ih (accumulate t o) (by rw [hacc]; omega), hacc]
      omega

theorem processOutputs_fst (p : String) (outs : List DecryptedOutput) (t : Totals) :
    (processOutputs p outs t).1 = outs.map (mkOutputInfo p) := by
  induction outs generalizing t with
  | nil => simp [processOutputs]
  | cons o rest ih => simp [processOutputs, ih]

theorem processOutputs_snd (p : String) (outs : List DecryptedOutput) (t : Totals) :
    (processOutputs p outs t).2 = outs.foldl accumulate t := by
  induction outs generalizing t with
  | nil => simp [processOutputs]
  | cons o rest ih => simp [processOutputs, ih]

theorem aggregateOutputs_fst (sapling orchard : List DecryptedOutput) :
    (aggregateOutputs sapling orchard).1
      = sapling.map (mkOutputInfo "Sapling") ++ orchard.map (mkOutputInfo "Orchard") := by
  simp [aggregateOutputs, processOutputs_fst]

theorem aggregateOutputs_snd (sapling orchard : List DecryptedOutput) :
    (aggregateOutputs sapling orchard).2
      = (sapling ++ orchard).foldl accumulate ⟨0, 0, 0⟩ := by
  simp [aggregateOutputs, processOutputs_snd, List.foldl_append]

theorem aggregate_incoming_eq (sapling orchard : List DecryptedOutput)
    (hin : totalOf .Incoming (sapling ++ orchard) ≤ u64Max) :
    (aggregateOutputs sapling orchard).2.incoming_zats
      = totalOf .Incoming (sapling ++ orchard) := by
  rw [aggregateOutputs_snd]
  have h := foldl_accumulate_incoming (sapling ++ orchard) ⟨0, 0, 0⟩ (by simpa using hin)
  simpa using h

theorem aggregate_change_eq (sapling orchard : List DecryptedOutput)
    (hch : totalOf .WalletInternal (sapling ++ orchard) ≤ u64Max) :
    (aggregateOutputs sapling orchard).2.change_zats
      = totalOf .WalletInternal (sapling ++ orchard) := by
  rw [aggregateOutputs_snd]
  have h := foldl_accumulate_change (sapling ++ orchard) ⟨0, 0, 0⟩ (by simpa using hch)
  simpa using h

theorem aggregate_outgoing_eq (sapling orchard : List DecryptedOutput)
    (hout : totalOf .Outgoing (sapling ++ orchard) ≤ u64Max) :
    (aggregateOutputs sapling orchard).2.outgoing_zats
      = totalOf .Outgoing (sapling ++ orchard) := by
  rw [aggregateOutputs_snd]
  have h := foldl_accumulate_outgoing (sapling ++ orchard) ⟨0, 0, 0⟩ (by simpa using hout)
  simpa using h

theorem assembleReport_ok (txid txid_short : List Char) (height size : Nat)
    (records : List OutputInfo) (t : Totals)
    (h1 : saturating_add t.incoming_zats t.change_zats ≤ i64Max)
    (h2 : t.incoming_zats ≤ i64Max) (h3 : t.change_zats ≤ i64Max)
    (h4 : t.outgoing_zats ≤ i64Max) :
    assembleReport txid txid_short height size records t =
      .ok { transaction_id := txid
            transaction_hash := txid_short
            amount_zats := (saturating_add t.incoming_zats t.change_zats : Int)
            incoming_zats := (t.incoming_zats : Int)
            change_zats := (t.change_zats : Int)
            outgoing_zats := (t.outgoing_zats : Int)
            fee_zats := 0
            block_height := height
            outputs := records
            tx_size_bytes := size } := by
  simp [assembleReport, i64_try_from, h1, h2, h3, h4]

theorem assembleReport_ok_inv (txid txid_short : List Char) (height size : Nat)
    (records : List OutputInfo) (t : Totals) (d : TransactionDetails)
    (hd : assembleReport txid txid_short height size records t = .ok d) :
    d.amount_zats = (saturating_add t.incoming_zats t.change_zats : Int) ∧
    d.incoming_zats = (t.incoming_zats : Int) ∧
    d.change_zats = (t.change_zats : Int) ∧
    d.outgoing_zats = (t.outgoing_zats : Int) ∧
    saturating_add t.incoming_zats t.change_zats ≤ i64Max ∧
    t.incoming_zats ≤ i64Max ∧ t.change_zats ≤ i64Max ∧ t.outgoing_zats ≤ i64Max ∧
    d.outputs = records ∧ d.transaction_hash = txid_short := by
  unfold assembleReport i64_try_from at hd
  split_ifs at hd with h1 h2 h3 h4
  · simp only [Except.ok.injEq] at hd
    subst hd
    exact ⟨rfl, rfl, rfl, rfl, h1, h2, h3, h4, rfl, rfl⟩

theorem assembleReport_error_iff (txid txid_short : List Char) (height size : Nat)
    (records : List OutputInfo) (t : Totals) :
    (∃ msg, assembleReport txid txid_short height size records t = .error msg) ↔
      (i64Max < saturating_add t.incoming_zats t.change_zats ∨
       i64Max < t.incoming_zats ∨ i64Max < t.change_zats ∨
       i64Max < t.outgoing_zats) := by
  unfold assembleReport i64_try_from
  split_ifs with h1 h2 h3 h4 <;> simp <;> omega

theorem format_txid_short_eq_some (txid : List Char) (h : 16 ≤ txid.length) :
    format_txid_short txid
      = some (txid.take 16 ++ "...".toList ++ txid.drop (txid.length - 16)) := by
  simp [format_txid_short, h]

theorem format_txid_short_eq_none (txid : List Char) (h : txid.length < 16) :
    format_txid_short txid = none := by
  rw [format_txid_short, if_neg (by omega)]

/-- C2: when no per-direction accumulation overflows, a successfully built
report has total-received equal to incoming plus internal exactly, and the
unsigned-to-signed conversion of every total is checked: the build fails
with an amount-overflow error exactly when some total exceeds `i64::MAX`,
never truncating. -/
theorem C2_total_received_and_checked (txid : List Char) (height size : Nat)
    (sapling orchard : List DecryptedOutput)
    (hin : totalOf .Incoming (sapling ++ orchard) ≤ u64Max)
    (hch : totalOf .WalletInternal (sapling ++ orchard) ≤ u64Max)
    (hout : totalOf .Outgoing (sapling ++ orchard) ≤ u64Max) :
    (∀ d : TransactionDetails,
        build_transaction_details txid height size sapling orchard = some (.ok d) →
        d.amount_zats = d.incoming_zats + d.change_zats ∧
        d.amount_zats = (totalOf .Incoming (sapling ++ orchard) : Int)
            + (totalOf .WalletInternal (sapling ++ orchard) : Int) ∧
        d.amount_zats ≤ (i64Max : Int) ∧ d.incoming_zats ≤ (i64Max : Int) ∧
        d.change_zats ≤ (i64Max : Int) ∧ d.outgoing_zats ≤ (i64Max : Int)) ∧
    (16 ≤ txid.length →
      ((∃ msg, build_transaction_details txid height size sapling orchard
          = some (.error msg)) ↔
        (i64Max < totalOf .Incoming (sapling ++ orchard)
            + totalOf .WalletInternal (sapling ++ orchard) ∨
         i64Max < totalOf .Incoming (sapling ++ orchard) ∨
         i64Max < totalOf .WalletInternal (sapling ++ orchard) ∨
         i64Max < totalOf .Outgoing (sapling ++ orchard)))) := by
  have hA := aggregate_incoming_eq sapling orchard hin
  have hB := aggregate_change_eq sapling orchard hch
  have hC := aggregate_outgoing_eq sapling orchard hout
  constructor
  · intro d hd
    unfold build_transaction_details at hd
    cases hfmt : format_txid_short txid with
    | none => rw [hfmt] at hd; cases hd
    | some short =>
      rw [hfmt] at hd
      simp only [Option.some.injEq] at hd
      have hinv := assembleReport_ok_inv _ _ _ _ _ _ _ hd
      obtain ⟨e1, e2, e3, e4, b1, _, _, b4, _, _⟩ := hinv
      simp only [hA, hB, hC] at e1 e2 e3 e4 b1 b4
      have hsum : saturating_add (totalOf .Incoming (sapling ++ orchard))
          (totalOf .WalletInternal (sapling ++ orchard))
          = totalOf .Incoming (sapling ++ orchard)
            + totalOf .WalletInternal (sapling ++ orchard) := by
        unfold saturating_add u64Max
        unfold i64Max saturating_add u64Max at b1
        omega
      refine ⟨?_, ?_, ?_, ?_, ?_, ?_⟩
      · rw [e1, e2, e3, hsum]
        push_cast
        ring
      · rw [e1, hsum]
        push_cast
        ring
      · rw [e1]
        exact_mod_cast b1
      · rw [e2]
        exact_mod_cast by rw [hsum] at b1; omega
      · rw [e3]
        exact_mod_cast by rw [hsum] at b1; omega
      · rw [e4]
        exact_mod_cast b4
  · intro h16
    have hfmt := format_txid_short_eq_some txid h16
    unfold build_transaction_details
    rw [hfmt]
    have herr := assembleReport_error_iff txid
      (txid.take 16 ++ "...".toList ++ txid.drop (txid.length - 16)) height size
      (aggregateOutputs sapling orchard).1 (aggregateOutputs sapling orchard).2
    rw [hA, hB, hC] at herr
    simp only [Option.some.injEq]
    rw [herr]
    unfold saturating_add u64Max i64Max
    omega

/-- Witness for C2 at a concrete input: one incoming Sapling output of 5
zats builds a report whose total-received field equals incoming plus
internal. -/
theorem C2_total_received_and_checked_witness :
    totalOf .Incoming ([⟨5, 0, .Incoming, []⟩] ++ ([] : List DecryptedOutput)) ≤ u64Max ∧
    ({ transaction_id := List.replicate 64 'a'
       transaction_hash := List.replicate 16 'a' ++ "...".toList ++ List.replicate 16 'a'
       amount_zats := 5
       incoming_zats := 5
       change_zats := 0
       outgoing_zats := 0
       fee_zats := 0
       block_height := 1
       outputs := [{ protocol := "Sapling", amount_zats := 5, index := 0,
                     transfer_type := "Incoming", direction := "received", memo := "" }]
       tx_size_bytes := 2 } : TransactionDetails).amount_zats
      = ({ transaction_id := List.replicate 64 'a'
           transaction_hash := List.replicate 16 'a' ++ "...".toList ++ List.replicate 16 'a'
           amount_zats := 5
           incoming_zats := 5
           change_zats := 0
           outgoing_zats := 0
           fee_zats := 0
           block_height := 1
           outputs := [{ protocol := "Sapling", amount_zats := 5, index := 0,
                         transfer_type := "Incoming", direction := "received", memo := "" }]
           tx_size_bytes := 2 } : TransactionDetails).incoming_zats
        + ({ transaction_id := List.replicate 64 'a'
             transaction_hash := List.replicate 16 'a' ++ "...".toList ++ List.replicate 16 'a'
             amount_zats := 5
             incoming_zats := 5
             change_zats := 0
             outgoing_zats := 0
             fee_zats := 0
             block_height := 1
             outputs := [{ protocol := "Sapling", amount_zats := 5, index := 0,
                           transfer_type := "Incoming", direction := "received", memo := "" }]
             tx_size_bytes := 2 } : TransactionDetails).change_zats :=
  ⟨by decide,
    ((C2_total_received_and_checked (List.replicate 64 'a') 1 2 [⟨5, 0, .Incoming, []⟩] []
        (by decide) (by decide) (by decide)).1 _ rfl).1⟩

/-- C4 counterexample: with two incoming outputs of u64::MAX each, the
saturating accumulator stops at u64::MAX, which differs from the exact sum
of the values carrying that classification, so the claim's unconditional
totals-equal-sums statement fails on the code. -/
theorem C4_order_and_totals_counterexample :
    (aggregateOutputs [⟨u64Max, 0, .Incoming, []⟩, ⟨u64Max, 1, .Incoming, []⟩]
        []).2.incoming_zats
      ≠ totalOf .Incoming
          ([⟨u64Max, 0, .Incoming, []⟩, ⟨u64Max, 1, .Incoming, []⟩] ++ []) := by
  decide

theorem foldl_accumulate_incoming_min (outs : List DecryptedOutput) (t : Totals)
    (h : t.incoming_zats ≤ u64Max) :
    (outs.foldl accumulate t).incoming_zats
      = min (t.incoming_zats + totalOf .Incoming outs) u64Max := by
  induction outs generalizing t with
  | nil =>
    simp [totalOf_nil]
    omega
  | cons o rest ih =>
    rw [List.foldl_cons, totalOf_cons]
    by_cases ho : o.transferType = .Incoming
    · rw [if_pos ho]
      have hacc : (accumulate t o).incoming_zats
          = min (t.incoming_zats + o.value) u64Max := by
        rw [accumulate_incoming, if_pos ho, saturating_add]
      rw [ih (accumulate t o) (by rw [hacc]; omega), hacc]
      omega
    · rw [if_neg ho]
      have hacc : (accumulate t o).incoming_zats = t.incoming_zats := by
        rw [accumulate_incoming, if_neg ho]
      rw [ih (accumulate t o) (by rw [hacc]; omega), hacc]
      omega

theorem foldl_accumulate_change_min (outs : List DecryptedOutput) (t : Totals)
    (h : t.change_zats ≤ u64Max) :
    (outs.foldl accumulate t).change_zats
      = min (t.change_zats + totalOf .WalletInternal outs) u64Max := by
  induction outs generalizing t with
  | nil =>
    simp [totalOf_nil]
    omega
  | cons o rest ih =>
    rw [List.foldl_cons, totalOf_cons]
    by_cases ho : o.transferType = .WalletInternal
    · rw [if_pos ho]
      have hacc : (accumulate t o).change_zats
          = min (t.change_zats + o.value) u64Max := by
        rw [accumulate_change, if_pos ho, saturating_add]
      rw [ih (accumulate t o) (by rw [hacc]; omega), hacc]
      omega
    · rw [if_neg ho]
      have hacc : (accumulate t o).change_zats = t.change_zats := by
        rw [accumulate_change, if_neg ho]
      rw [ih (accumulate t o) (by rw [hacc]; omega), hacc]
      omega

theorem foldl_accumulate_outgoing_min (outs : List DecryptedOutput) (t : Totals)
    (h : t.outgoing_zats ≤ u64Max) :
    (outs.foldl accumulate t).outgoing_zats
      = min (t.outgoing_zats + totalOf .Outgoing outs) u64Max := by
  induction outs generalizing t with
  | nil =>
    simp [totalOf_nil]
    omega
  | cons o rest ih =>
    rw [List.foldl_cons, totalOf_cons]
    by_cases ho : o.transferType = .Outgoing
    · rw [if_pos ho]
      have hacc : (accumulate t o).outgoing_zats
          = min (t.outgoing_zats + o.value) u64Max := by
        rw [accumulate_outgoing, if_pos ho, saturating_add]
      rw [ih (accumulate t o) (by rw [hacc]; omega), hacc]
      omega
    · rw [if_neg ho]
      have hacc : (accumulate t o).outgoing_zats = t.outgoing_zats := by
        rw [accumulate_outgoing, if_neg ho]
      rw [ih (accumulate t o) (by rw [hacc]; omega), hacc]
      omega

theorem aggregate_incoming_min (sapling orchard : List DecryptedOutput) :
    (aggregateOutputs sapling orchard).2.incoming_zats
      = min (totalOf .Incoming (sapling ++ orchard)) u64Max := by
  rw [aggregateOutputs_snd]
  have h := foldl_accumulate_incoming_min (sapling ++ orchard) ⟨0, 0, 0⟩ (Nat.zero_le _)
  simpa using h

theorem aggregate_change_min (sapling orchard : List DecryptedOutput) :
    (aggregateOutputs sapling orchard).2.change_zats
      = min (totalOf .WalletInternal (sapling ++ orchard)) u64Max := by
  rw [aggregateOutputs_snd]
  have h := foldl_accumulate_change_min (sapling ++ orchard) ⟨0, 0, 0⟩ (Nat.zero_le _)
  simpa using h

theorem aggregate_outgoing_min (sapling orchard : List DecryptedOutput) :
    (aggregateOutputs sapling orchard).2.outgoing_zats
      = min (totalOf .Outgoing (sapling ++ orchard)) u64Max := by
  rw [aggregateOutputs_snd]
  have h := foldl_accumulate_outgoing_min (sapling ++ orchard) ⟨0, 0, 0⟩ (Nat.zero_le _)
  simpa using h

/-- C4 (amended): for every pair of ordered decrypted-output lists — with
no restriction on the values — the emitted record sequence is all Sapling
outputs in input order followed by all Orchard outputs in input order,
and each direction's total equals the exact value sum of the outputs
carrying that classification capped at u64::MAX; hence the total equals
the exact sum whenever that sum does not exceed u64::MAX, and caps at
u64::MAX above it.  In particular [A(Incoming,5), B(Outgoing,3),
C(Internal,2)] yields incoming=5, outgoing=3, internal=2 and the record
sequence [A,B,C]. -/
theorem C4_order_and_totals_amended (sapling orchard : List DecryptedOutput) :
    (aggregateOutputs sapling orchard).1
      = sapling.map (mkOutputInfo "Sapling") ++ orchard.map (mkOutputInfo "Orchard") ∧
    (aggregateOutputs sapling orchard).2.incoming_zats
      = min (totalOf .Incoming (sapling ++ orchard)) u64Max ∧
    (aggregateOutputs sapling orchard).2.change_zats
      = min (totalOf .WalletInternal (sapling ++ orchard)) u64Max ∧
    (aggregateOutputs sapling orchard).2.outgoing_zats
      = min (totalOf .Outgoing (sapling ++ orchard)) u64Max ∧
    (totalOf .Incoming (sapling ++ orchard) ≤ u64Max →
      (aggregateOutputs sapling orchard).2.incoming_zats
        = totalOf .Incoming (sapling ++ orchard)) ∧
    (totalOf .WalletInternal (sapling ++ orchard) ≤ u64Max →
      (aggregateOutputs sapling orchard).2.change_zats
        = totalOf .WalletInternal (sapling ++ orchard)) ∧
    (totalOf .Outgoing (sapling ++ orchard) ≤ u64Max →
      (aggregateOutputs sapling orchard).2.outgoing_zats
        = totalOf .Outgoing (sapling ++ orchard)) ∧
    (u64Max < totalOf .Incoming (sapling ++ orchard) →
      (aggregateOutputs sapling orchard).2.incoming_zats = u64Max) ∧
    (u64Max < totalOf .WalletInternal (sapling ++ orchard) →
      (aggregateOutputs sapling orchard).2.change_zats = u64Max) ∧
    (u64Max < totalOf .Outgoing (sapling ++ orchard) →
      (aggregateOutputs sapling orchard).2.outgoing_zats = u64Max) ∧
    (aggregateOutputs
        [⟨5, 0, .Incoming, []⟩, ⟨3, 1, .Outgoing, []⟩, ⟨2, 2, .WalletInternal, []⟩] [])
      = ([mkOutputInfo "Sapling" ⟨5, 0, .Incoming, []⟩,
          mkOutputInfo "Sapling" ⟨3, 1, .Outgoing, []⟩,
          mkOutputInfo "Sapling" ⟨2, 2, .WalletInternal, []⟩], ⟨5, 2, 3⟩) := by
  have hmin_in := aggregate_incoming_min sapling orchard
  have hmin_ch := aggregate_change_min sapling orchard
  have hmin_out := aggregate_outgoing_min sapling orchard
  refine ⟨aggregateOutputs_fst sapling orchard, hmin_in, hmin_ch, hmin_out,
    ?_, ?_, ?_, ?_, ?_, ?_, rfl⟩
  · intro h
    rw [hmin_in]
    omega
  · intro h
    rw [hmin_ch]
    omega
  · intro h
    rw [hmin_out]
    omega
  · intro h
    rw [hmin_in]
    omega
  · intro h
    rw [hmin_ch]
    omega
  · intro h
    rw [hmin_out]
    omega

/-- Witness for C4 (amended) at the concrete three-output input of the
claim, discharging the no-overflow hypothesis of the exact-totals
clause. -/
theorem C4_order_and_totals_amended_witness :
    (aggregateOutputs
        [⟨5, 0, .Incoming, []⟩, ⟨3, 1, .Outgoing, []⟩, ⟨2, 2, .WalletInternal, []⟩]
        []).2.incoming_zats
      = totalOf .Incoming
          ([⟨5, 0, .Incoming, []⟩, ⟨3, 1, .Outgoing, []⟩, ⟨2, 2, .WalletInternal, []⟩]
            ++ []) :=
  (C4_order_and_totals_amended
      [⟨5, 0, .Incoming, []⟩, ⟨3, 1, .Outgoing, []⟩, ⟨2, 2, .WalletInternal, []⟩]
      []).2.2.2.2.1 (by decide)

/-- C5: the classification-to-display mapping is exactly Incoming ↦
("Incoming","received"), WalletInternal ↦ ("WalletInternal","change"),
Outgoing ↦ ("Outgoing","sent"); the classification set is closed — every
value is one of the three, so the exhaustive match has no default path to
fall through silently — and every emitted record carries exactly the pair
of its classification. -/
theorem C5_classification_closed_exhaustive :
    classify_transfer .Incoming = ("Incoming", "received") ∧
    classify_transfer .WalletInternal = ("WalletInternal", "change") ∧
    classify_transfer .Outgoing = ("Outgoing", "sent") ∧
    (∀ t : TransferType, t = .Incoming ∨ t = .WalletInternal ∨ t = .Outgoing) ∧
    (∀ (p : String) (o : DecryptedOutput),
      ((mkOutputInfo p o).transfer_type, (mkOutputInfo p o).direction)
        = classify_transfer o.transferType) := by
  refine ⟨rfl, rfl, rfl, ?_, ?_⟩
  · intro t
    cases t
    · exact .inl rfl
    · exact .inr (.inl rfl)
    · exact .inr (.inr rfl)
  · intro p o
    rfl

/-- C7: each per-direction accumulator is updated by saturating addition:
the result is never less than the accumulator before the addition, never
exceeds u64::MAX (no wraparound), equals the exact sum when that fits,
and caps at u64::MAX on overflow. -/
theorem C7_saturating_accumulators (a v : Nat) (t : Totals) (o : DecryptedOutput)
    (ha : a ≤ u64Max)
    (h1 : t.incoming_zats ≤ u64Max) (h2 : t.change_zats ≤ u64Max)
    (h3 : t.outgoing_zats ≤ u64Max) :
    (a ≤ saturating_add a v ∧ saturating_add a v ≤ u64Max) ∧
    (a + v ≤ u64Max → saturating_add a v = a + v) ∧
    (u64Max < a + v → saturating_add a v = u64Max) ∧
    (t.incoming_zats ≤ (accumulate t o).incoming_zats ∧
      (accumulate t o).incoming_zats ≤ u64Max) ∧
    (t.change_zats ≤ (accumulate t o).change_zats ∧
      (accumulate t o).change_zats ≤ u64Max) ∧
    (t.outgoing_zats ≤ (accumulate t o).outgoing_zats ∧
      (accumulate t o).outgoing_zats ≤ u64Max) := by
  have hsat : ∀ x y : Nat, x ≤ u64Max →
      x ≤ saturating_add x y ∧ saturating_add x y ≤ u64Max := by
    intro x y hx
    unfold saturating_add
    omega
  refine ⟨hsat a v ha, ?_, ?_, ?_, ?_, ?_⟩
  · intro h
    unfold saturating_add
    omega
  · intro h
    unfold saturating_add
    omega
  · rw [accumulate_incoming]
    split_ifs
    exacts [hsat _ _ h1, ⟨le_refl _, h1⟩]
  · rw [accumulate_change]
    split_ifs
    exacts [hsat _ _ h2, ⟨le_refl _, h2⟩]
  · rw [accumulate_outgoing]
    split_ifs
    exacts [hsat _ _ h3, ⟨le_refl _, h3⟩]

/-- Witness for C7 at concrete values, including the cap at u64::MAX. -/
theorem C7_saturating_accumulators_witness :
    (u64Max ≤ saturating_add u64Max 1 ∧ saturating_add u64Max 1 ≤ u64Max) :=
  (C7_saturating_accumulators u64Max 1 ⟨0, 0, 0⟩ ⟨1, 0, .Incoming, []⟩
      (by decide) (by decide) (by decide) (by decide)).1

/-- C6 counterexample: a 20-character id is shorter than 32 characters,
yet the build succeeds — with an overlapping shortened form — instead of
failing with an invalid-identifier error. -/
theorem C6_short_id_counterexample :
    (List.replicate 20 'b').length < 32 ∧
    build_transaction_details (List.replicate 20 'b') 7 0 [] []
      = some (.ok
        ({ transaction_id := List.replicate 20 'b'
           transaction_hash := List.replicate 16 'b' ++ "...".toList ++ List.replicate 16 'b'
           amount_zats := 0
           incoming_zats := 0
           change_zats := 0
           outgoing_zats := 0
           fee_zats := 0
           block_height := 7
           outputs := []
           tx_size_bytes := 0 } : TransactionDetails)) :=
  ⟨by decide, rfl⟩

/-- C6 (amended): for every id of at least 16 characters — in particular
every id of at least 32 — the shortened identifier is exactly the first
16 characters, an ellipsis, and the last 16 characters (overlapping when
the length is below 32); there is no invalid-identifier error: ids
shorter than 16 characters panic in the slicing (modelled `none`), and
the pipeline's entry validation separately accepts only ids of exactly
64 characters. -/
theorem C6_short_id_amended (txid : List Char) (height size : Nat)
    (sapling orchard : List DecryptedOutput) (d : TransactionDetails) :
    (16 ≤ txid.length →
      format_txid_short txid
        = some (txid.take 16 ++ "...".toList ++ txid.drop (txid.length - 16))) ∧
    (txid.length < 16 →
      build_transaction_details txid height size sapling orchard = none) ∧
    (build_transaction_details txid height size sapling orchard = some (.ok d) →
      d.transaction_hash = txid.take 16 ++ "...".toList ++ txid.drop (txid.length - 16)) ∧
    (validate_txid_len txid = true ↔ txid.length = 64) := by
  refine ⟨format_txid_short_eq_some txid, ?_, ?_, ?_⟩
  · intro hlt
    unfold build_transaction_details
    rw [format_txid_short_eq_none txid hlt]
  · intro hd
    unfold build_transaction_details at hd
    cases hfmt : format_txid_short txid with
    | none => rw [hfmt] at hd; cases hd
    | some short =>
      rw [hfmt] at hd
      simp only [Option.some.injEq] at hd
      obtain ⟨_, _, _, _, _, _, _, _, _, hhash⟩ :=
        assembleReport_ok_inv _ _ _ _ _ _ _ hd
      have h16 : 16 ≤ txid.length := by
        by_contra h
        rw [format_txid_short_eq_none txid (by omega)] at hfmt
        cases hfmt
      rw [format_txid_short_eq_some txid h16] at hfmt
      injection hfmt with hshort
      rw [hhash, ← hshort]
  · simp [validate_txid_len]

/-- Witness for C6 (amended) at a concrete 64-character id. -/
theorem C6_short_id_amended_witness :
    format_txid_short (List.replicate 64 'c')
      = some (List.replicate 16 'c' ++ "...".toList ++ List.replicate 16 'c') :=
  (C6_short_id_amended (List.replicate 64 'c') 0 0 [] []
      { transaction_id := []
        transaction_hash := []
        amount_zats := 0
        incoming_zats := 0
        change_zats := 0
        outgoing_zats := 0
        fee_zats := 0
        block_height := 0
        outputs := []
        tx_size_bytes := 0 }).1 (by decide)

theorem memo_as_slice_all_zero (bs : List Nat) (h : ∀ b ∈ bs, b = 0) :
    memo_as_slice bs = [] := by
  unfold memo_as_slice
  have hz : bs.reverse.dropWhile (fun b => b == 0) = [] := by
    rw [List.dropWhile_eq_nil_iff]
    intro x hx
    simp [h x (List.mem_reverse.mp hx)]
  rw [hz]
  rfl

/-- C9: for every decrypted output whose memo is absent or unset (both
represented as all-zero memo bytes) or all-zero, the emitted record's
memo field is the empty string. -/
theorem C9_empty_memo_sentinel (p : String) (o : DecryptedOutput)
    (h : ∀ b ∈ o.memoBytes, b = 0) :
    (mkOutputInfo p o).memo = "" := by
  show memoString o.memoBytes = ""
  unfold memoString
  rw [memo_as_slice_all_zero o.memoBytes h]
  rfl

/-- Witness for C9 at a concrete all-zero memo. -/
theorem C9_empty_memo_sentinel_witness :
    (mkOutputInfo "Sapling" ⟨1, 0, .Incoming, [0, 0, 0]⟩).memo = "" :=
  C9_empty_memo_sentinel "Sapling" ⟨1, 0, .Incoming, [0, 0, 0]⟩ (by decide)

/-- C10: the per-output signed amount is the unchecked two's-complement
reinterpretation of the u64 value — for values above i64::MAX the
record's amount_zats is negative and record emission has no error path
(a record is produced for every output) — unlike the direction totals,
whose i64 conversion is checked and fails above i64::MAX. -/
theorem C10_unchecked_per_output_cast (p : String) (o : DecryptedOutput)
    (outs : List DecryptedOutput) (t : Totals) (v : Nat)
    (hv : o.value ≤ u64Max) (hvBig : i64Max < o.value) (hvv : i64Max < v) :
    (mkOutputInfo p o).amount_zats = u64_as_i64 o.value ∧
    (mkOutputInfo p o).amount_zats < 0 ∧
    (processOutputs p outs t).1 = outs.map (mkOutputInfo p) ∧
    i64_try_from v = none := by
  refine ⟨rfl, ?_, processOutputs_fst p outs t, ?_⟩
  · show u64_as_i64 o.value < 0
    unfold i64Max at hvBig
    unfold u64Max at hv
    unfold u64_as_i64
    split_ifs with h
    · omega
    · have hlt : o.value < 2 ^ 64 := by omega
      have hcast : (o.value : Int) < (2 : Int) ^ 64 := by exact_mod_cast hlt
      omega
  · unfold i64_try_from
    rw [if_neg (by omega)]

/-- Witness for C10 at value 2^63, one above i64::MAX. -/
theorem C10_unchecked_per_output_cast_witness :
    (mkOutputInfo "Orchard" ⟨2 ^ 63, 0, .Outgoing, []⟩).amount_zats < 0 :=
  (C10_unchecked_per_output_cast "Orchard" ⟨2 ^ 63, 0, .Outgoing, []⟩ [] ⟨0, 0, 0⟩
      (2 ^ 63) (by decide) (by decide) (by decide)).2.1

/-- Modelled from the spec: the height-to-rule-set mapping supplied by the
parsing collaborator (`BranchId::for_height`, not part of this
repository) resolves heights inside the collision window to the canonical
rule-set (NU6), whose little-endian identifier encoding is 55 10 e7 c8,
because the parser recognizes only the canonical identifier. -/
def branch_id_bytes_for_window : List Nat := nu6IdBytes

/-- Modelled from the spec: the envelope parser (`Transaction::read`, not
part of this repository) accepts a version-5 envelope only when the
4-byte identifier field at bytes 8-11 equals the little-endian encoding
of the supplied rule-set id. -/
def parser_id_check (ruleSetIdBytes : List Nat) (bytes : List Nat) : Bool :=
  decide (12 ≤ bytes.length) &&
  decide ([bytes.getD 8 0, bytes.getD 9 0, bytes.getD 10 0, bytes.getD 11 0]
    = ruleSetIdBytes)

/-- C3: for every input whose height lies inside the collision window and
whose bytes carry the NU6.1 identifier in a v5 header, the resolver
resolves to the canonical rule-set id and the parser's identifier check
succeeds on the patched bytes it receives — while on the unpatched bytes
the check under the canonical identifier would fail. -/
theorem C3_window_patch_parses (network : Network) (height : Nat) (bytes : List Nat)
    (hc : nu61PatchCond network height bytes) :
    branch_id_bytes_for_window = nu6IdBytes ∧
    parser_id_check branch_id_bytes_for_window
      (resolveTxBytes network height bytes) = true ∧
    parser_id_check branch_id_bytes_for_window bytes = false := by
  have hp := resolveTxBytes_eq_patch network height bytes hc
  refine ⟨rfl, ?_, ?_⟩
  · rw [hp]
    have h12 : 12 ≤ (patchNu61 bytes).length := by
      rw [length_patchNu61]
      exact hc.2.1
    have e8 := patchNu61_getD_8 bytes hc.2.1
    have e9 := patchNu61_getD_9 bytes hc.2.1
    have e10 := patchNu61_getD_10 bytes hc.2.1
    have e11 := patchNu61_getD_11 bytes hc.2.1
    simp only [List.getD_eq_getElem?_getD] at e8 e9 e10 e11
    simp [parser_id_check, branch_id_bytes_for_window, nu6IdBytes, h12, e8, e9, e10, e11]
  · have h5 := hc.2.2.2.2.1
    simp only [List.getD_eq_getElem?_getD] at h5
    simp [parser_id_check, branch_id_bytes_for_window, nu6IdBytes, h5]

/-- Witness for C3 at a concrete NU6.1-stamped input at the mainnet
threshold height. -/
theorem C3_window_patch_parses_witness :
    parser_id_check branch_id_bytes_for_window
      (resolveTxBytes .MainNetwork 3146400
        [5, 0, 0, 128, 0, 0, 0, 0, 240, 77, 236, 77]) = true :=
  (C3_window_patch_parses .MainNetwork 3146400
      [5, 0, 0, 128, 0, 0, 0, 0, 240, 77, 236, 77] (by decide)).2.1

end ZcashTxDecryptor
